import Mathlib

/-!
Verification of the zone-based ID-card OCR pipeline
(`processor.py` / `ocr_service.py`).

The processor (`IDCardOCRProcessor`) is embedded as a pure function
parameterised over its external collaborators (image decoder, document
detector, normalizer, zone reader, validator, recognition engine), which
the repository treats as external components: they are gathered in an
`Env` structure, so every theorem about the pipeline quantifies over
their behaviour.  Text handled inside the OCR service is modelled as a
list of code points (`PyStr`), with ASCII case mapping.
-/

namespace IDCardOCR

/-- A fractional zone rectangle `{x, y, width, height}` as stored in the
zone layout JSON.  Coordinates are modelled as rationals (exact values of
the fractional layout numbers). -/
structure Zone where
  x : ℚ
  y : ℚ
  width : ℚ
  height : ℚ
deriving DecidableEq

/-- Python `int()` applied to a number: truncation toward zero. -/
def pyInt (q : ℚ) : ℤ :=
  if 0 ≤ q then ⌊q⌋ else ⌈q⌉

/-- The absolute pixel rectangle computed at `processor.py` lines 131-134:
`x = int(zone['x'] * self.target_width)` and likewise for `y`, `w`, `h`. -/
def zoneRect (zone : Zone) (target_width target_height : ℕ) : ℤ × ℤ × ℤ × ℤ :=
  (pyInt (zone.x * target_width), pyInt (zone.y * target_height),
   pyInt (zone.width * target_width), pyInt (zone.height * target_height))

/-- Modelled from the spec: the spec (§4.1) states the rectangle is computed
by rounding, `px = round(x * frameWidth)` etc.; this definition follows the
spec's words, to be compared with `zoneRect`, which follows the code. -/
def specZoneRect (zone : Zone) (target_width target_height : ℕ) : ℤ × ℤ × ℤ × ℤ :=
  (round (zone.x * target_width), round (zone.y * target_height),
   round (zone.width * target_width), round (zone.height * target_height))

end IDCardOCR

namespace IDCardOCR

/-- The example zone `{x:0.1, y:0.1, width:0.2, height:0.05}` from the spec. -/
def exampleZone : Zone := ⟨1/10, 1/10, 1/5, 1/20⟩

end IDCardOCR

namespace IDCardOCR

/-! ## Text model for the OCR service (`ocr_service.py`)

A Python string is modelled as a list of code points; case mapping is
modelled on the ASCII range. -/

/-- A Python string, as a list of code points. -/
abbrev PyStr := List ℕ

/-- Whitespace for Python's `str.split()` / `str.strip()` (ASCII range):
space, tab, newline, carriage return, vertical tab, form feed. -/
def isWs (c : ℕ) : Bool :=
  c == 32 || c == 9 || c == 10 || c == 13 || c == 11 || c == 12

/-- Python `str.upper()` on one code point (ASCII case mapping). -/
def upperChar (c : ℕ) : ℕ :=
  if 97 ≤ c ∧ c ≤ 122 then c - 32 else c

/-- Python `text.strip()`: remove leading and trailing whitespace. -/
def pyStrip (s : PyStr) : PyStr :=
  ((s.dropWhile isWs).reverse.dropWhile isWs).reverse

/-- Python `text.split()` with no argument: split on runs of whitespace,
discarding empty pieces. -/
def pySplit : PyStr → List PyStr
  | [] => []
  | c :: cs =>
    if isWs c then pySplit cs
    else
      (c :: cs).takeWhile (fun d => !isWs d) ::
        pySplit ((c :: cs).dropWhile (fun d => !isWs d))
termination_by s => s.length
decreasing_by
  · simp
  · simp only [List.dropWhile_cons]
    have hc : (!isWs c) = true := by simp_all
    simp only [hc, if_true]
    exact Nat.lt_succ_of_le (List.dropWhile_suffix _).length_le

/-- Python `sep.join(pieces)`. -/
def pyJoin (sep : PyStr) : List PyStr → PyStr
  | [] => []
  | [w] => w
  | w :: ws => w ++ sep ++ pyJoin sep ws

/-- The cleaning performed inside `OCRService.extract_text_from_roi`
(`ocr_service.py` lines 138-143): `cleaned = text.strip()`, then
`cleaned = ' '.join(cleaned.split())`, then `return cleaned.upper()`. -/
def cleanRoi (text : PyStr) : PyStr :=
  (pyJoin [32] (pySplit (pyStrip text))).map upperChar

/-- Outcome of the engine call inside the `try` block of
`extract_text_from_roi` (image conversion plus `pytesseract.image_to_string`):
either raw text, or a raised exception. -/
inductive RecognitionOutcome where
  | ok (text : PyStr)
  | failure
deriving DecidableEq

/-- Embedding of `OCRService.extract_text_from_roi` (`ocr_service.py` lines 108-147):
returns `""` when Tesseract is unavailable, the cleaned engine text on
success, and `""` when the engine call raises (the `except` branch). -/
def extract_text_from_roi {Img : Type} (tesseract_available : Bool)
    (engine : Img → RecognitionOutcome) (image_array : Img) : PyStr :=
  if !tesseract_available then []
  else
    match engine image_array with
    | .ok text => cleanRoi text
    | .failure => []

/-! ## The processor (`processor.py`)

`IDCardOCRProcessor` holds its external collaborators; they are gathered
in an `Env`, parameterised over the image type `Img`.  Python dictionaries
are modelled as insertion-ordered association lists. -/

/-- A Python `dict` with string keys, as an insertion-ordered association
list. -/
abbrev Dict (β : Type) := List (String × β)

/-- The processor instance together with its external collaborators
(`normalizer.decode_base64`, numpy `.size`, `detector.process`,
`normalizer.normalize_document`, `zone_reader.load_zones` composed with the
`['zones']` access, `detector.crop_zone`, `ocr_service.extract_text_from_roi`,
`validator.clean_text`, `validator.validate_all`) and the canonical frame
dimensions. -/
structure Env (Img : Type) where
  decode_base64 : String → Option Img
  size : Img → ℕ
  detect : Img → Img × Bool
  normalize_document : Img → Img
  load_zones : String → Dict Zone
  crop_zone : Img → ℤ → ℤ → ℤ → ℤ → Img
  roi_ocr : Img → String
  clean_text : String → String
  validate_all : Dict String → Dict String
  target_width : ℕ
  target_height : ℕ

/-- The fixed front field list `IDCardOCRProcessor.FRONT_FIELDS`. -/
def FRONT_FIELDS : List String :=
  ["f_nazwisko", "f_imiona", "f_obywatelstwo", "f_data_urodzenia",
   "f_plec", "f_numer_ID", "f_data_waznosci", "f_numer_kodu"]

/-- The fixed back field list `IDCardOCRProcessor.BACK_FIELDS`. -/
def BACK_FIELDS : List String :=
  ["b_seria_id", "b_numer_id", "b_numer_ident", "b_data_wydania",
   "b_kto_wydal", "b_imiona_rodzicow", "b_nazwisko_rodowe",
   "b_miejsce_urodzenia", "MRZ"]

/-- Lines 111-115 of `processor.py`: `corrected, detected = self.detector.process(image)`;
if not detected, `corrected = self.normalizer.normalize_document(image)`. -/
def correctedImage {Img : Type} (env : Env Img) (image : Img) : Img :=
  let pr := env.detect image
  if pr.2 then pr.1 else env.normalize_document image

/-- The per-field extraction loop of `_process_side` (`processor.py` lines
122-149).  Besides the results dictionary it returns, for instrumentation,
the list of fields for which `extract_text_from_roi` was invoked. -/
def extractZones {Img : Type} (env : Env Img) (corrected : Img)
    (zones : Dict Zone) : List String → Dict String × List String
  | [] => ([], [])
  | field :: rest =>
    let tail := extractZones env corrected zones rest
    match zones.lookup field with
    | none => ((field, "") :: tail.1, tail.2)
    | some zone =>
      let r := zoneRect zone env.target_width env.target_height
      let cropped := env.crop_zone corrected r.1 r.2.1 r.2.2.1 r.2.2.2
      if env.size cropped == 0 then ((field, "") :: tail.1, tail.2)
      else ((field, env.clean_text (env.roi_ocr cropped)) :: tail.1,
            field :: tail.2)

/-- Embedding of `IDCardOCRProcessor._process_side` (`processor.py` lines 92-154),
instrumented with the list of fields for which the recognition engine was
invoked. -/
def processSideCalls {Img : Type} (env : Env Img) (image_base64 side : String)
    (fields : List String) : Dict String × List String :=
  match env.decode_base64 image_base64 with
  | none => (fields.map (fun f => (f, "")), [])
  | some image =>
    if env.size image == 0 then (fields.map (fun f => (f, "")), [])
    else
      let corrected := correctedImage env image
      let zones := env.load_zones side
      let res := extractZones env corrected zones fields
      (env.validate_all res.1, res.2)

/-- The dictionary returned by `IDCardOCRProcessor._process_side`. -/
def process_side {Img : Type} (env : Env Img) (image_base64 side : String)
    (fields : List String) : Dict String :=
  (processSideCalls env image_base64 side fields).1

/-- Embedding of `IDCardOCRProcessor.process_front`. -/
def process_front {Img : Type} (env : Env Img) (image_base64 : String) : Dict String :=
  process_side env image_base64 "front" FRONT_FIELDS

/-- Embedding of `IDCardOCRProcessor.process_back`. -/
def process_back {Img : Type} (env : Env Img) (image_base64 : String) : Dict String :=
  process_side env image_base64 "back" BACK_FIELDS

/-- Python `d[k] = v` on a dictionary: overwrite in place if the key is
present, else append. -/
def dictInsert (d : Dict String) (k v : String) : Dict String :=
  if d.any (fun p => p.1 == k) then
    d.map (fun p => if p.1 == k then (k, v) else p)
  else d ++ [(k, v)]

/-- Python `d.update(add)`. -/
def dictUpdate (d add : Dict String) : Dict String :=
  add.foldl (fun acc p => dictInsert acc p.1 p.2) d

/-- The combined result returned by `process_both` (`processor.py`
lines 179-185). -/
structure CombinedResult where
  success : Bool
  data : Dict String
  extracted_fields : ℕ
  total_fields : ℕ
  extraction_rate : ℚ
deriving DecidableEq

/-- Embedding of `IDCardOCRProcessor.process_both` (`processor.py` lines 156-185):
`all_results = {}` updated with the front then the back results;
`successful = sum(1 for v in all_results.values() if v)` (Python string
truthiness: non-empty); `total = len(all_results)`. -/
def process_both {Img : Type} (env : Env Img) (front_base64 back_base64 : String) :
    CombinedResult :=
  let front_results := process_front env front_base64
  let back_results := process_back env back_base64
  let all_results := dictUpdate (dictUpdate [] front_results) back_results
  let successful := (all_results.filter (fun p => p.2 != "")).length
  let total := all_results.length
  { success := true
    data := all_results
    extracted_fields := successful
    total_fields := total
    extraction_rate := if total > 0 then (successful : ℚ) / (total : ℚ) else 0 }

/-! ## Collaborator contracts

The validator is an external collaborator (`ocr/validators.py`, not part
of the embedded core); these predicates state the parts of its contract
(§6, §3 of the design) that the aggregate claims rely on. -/

/-- Modelled from the spec: `validate_all` lives in `ocr/validators.py`,
which is not part of the embedded sources; per the spec it applies
field-specific format correction to a mapping and the key set of a
SideResult equals the FieldList regardless of extraction success (§3, §6),
so it keeps the key list of the mapping it corrects. -/
def PreservesKeys (v : Dict String → Dict String) : Prop :=
  ∀ m, (v m).map Prod.fst = m.map Prod.fst

/-- Modelled from the spec: the other half of the `validate_all` contract —
validation corrects formats of extracted text and converts failures into
empty-string values (§4.1, §7), so a field whose extracted value is already
empty stays empty; it introduces no text of its own. -/
def PreservesEmpty (v : Dict String → Dict String) : Prop :=
  ∀ m k, m.lookup k = some "" → (v m).lookup k = some ""

/-! ## Structural lemmas about the extraction loop -/

theorem extractZones_keys {Img : Type} (env : Env Img) (corrected : Img)
    (zones : Dict Zone) (fields : List String) :
    (extractZones env corrected zones fields).1.map Prod.fst = fields := by
  induction fields with
  | nil => simp [extractZones]
  | cons f rest ih =>
    simp only [extractZones]
    cases hz : zones.lookup f with
    | none => simpa [hz] using ih
    | some zone =>
      simp only [hz]
      split <;> simpa using ih

theorem map_empty_keys (fields : List String) :
    (fields.map (fun f => (f, ""))).map Prod.fst = fields := by
  simp [Function.comp_def]

theorem process_side_keys {Img : Type} (env : Env Img)
    (hv : PreservesKeys env.validate_all) (image_base64 side : String)
    (fields : List String) :
    (process_side env image_base64 side fields).map Prod.fst = fields := by
  unfold process_side processSideCalls
  cases hd : env.decode_base64 image_base64 with
  | none => simp [Function.comp_def]
  | some image =>
    simp only
    split
    · simp [Function.comp_def]
    · simpa [hv _] using extractZones_keys env (correctedImage env image)
        (env.load_zones side) fields

/-! ## Dictionary merge lemmas -/

theorem dictInsert_not_mem (d : Dict String) (k v : String)
    (h : k ∉ d.map Prod.fst) : dictInsert d k v = d ++ [(k, v)] := by
  unfold dictInsert
  have : d.any (fun p => p.1 == k) = false := by
    simp only [List.any_eq_false]
    intro p hp
    simp only [beq_iff_eq]
    intro hk
    exact h (hk ▸ List.mem_map_of_mem Prod.fst hp)
  simp [this]

theorem dictUpdate_disjoint (add : Dict String) :
    ∀ d : Dict String, (∀ k ∈ add.map Prod.fst, k ∉ d.map Prod.fst) →
    (add.map Prod.fst).Nodup → dictUpdate d add = d ++ add := by
  induction add with
  | nil => intro d _ _; simp [dictUpdate]
  | cons p rest ih =>
    intro d hdisj hnodup
    have hk : p.1 ∉ d.map Prod.fst := hdisj p.1 (by simp)
    have step : dictUpdate d (p :: rest) = dictUpdate (d ++ [(p.1, p.2)]) rest := by
      simp only [dictUpdate, List.foldl_cons]
      rw [dictInsert_not_mem d p.1 p.2 hk]
    rw [step, ih (d ++ [(p.1, p.2)])]
    · simp
    · intro k hkmem
      simp only [List.map_append, List.mem_append]
      push_neg
      refine ⟨hdisj k (by simp [hkmem]), ?_⟩
      simp only [List.map_cons, List.nodup_cons] at hnodup
      simp only [List.map_cons, List.map_nil, List.mem_singleton]
      intro hkp
      exact hnodup.1 (hkp ▸ hkmem)
    · simp only [List.map_cons, List.nodup_cons] at hnodup
      exact hnodup.2

/-! ## Per-field lookup lemmas -/

theorem lookup_cons_self {β : Type} (a : String) (v : β) (l : List (String × β)) :
    List.lookup a ((a, v) :: l) = some v := by
  simp [List.lookup]

theorem lookup_cons_ne {β : Type} (a b : String) (v : β) (l : List (String × β))
    (h : a ≠ b) : List.lookup a ((b, v) :: l) = List.lookup a l := by
  simp [List.lookup, beq_false_of_ne h]

theorem extractZones_lookup_of_no_zone {Img : Type} (env : Env Img) (corrected : Img)
    (zones : Dict Zone) (field : String) (hz : zones.lookup field = none) :
    ∀ fields : List String, field ∈ fields →
    (extractZones env corrected zones fields).1.lookup field = some "" := by
  intro fields
  induction fields with
  | nil => intro h; exact absurd h (List.not_mem_nil field)
  | cons f rest ih =>
    intro hmem
    by_cases hf : f = field
    · subst hf
      simp only [extractZones, hz]
      exact lookup_cons_self f "" _
    · have hrest : field ∈ rest := by
        rcases List.mem_cons.mp hmem with h | h
        · exact absurd h.symm hf
        · exact h
      have hne : field ≠ f := fun h => hf h.symm
      simp only [extractZones]
      cases hzf : zones.lookup f with
      | none => rw [lookup_cons_ne field f "" _ hne]; exact ih hrest
      | some zone =>
        simp only
        split
        · rw [lookup_cons_ne field f "" _ hne]; exact ih hrest
        · rw [lookup_cons_ne field f _ _ hne]; exact ih hrest

theorem extractZones_zero_crop {Img : Type} (env : Env Img) (corrected : Img)
    (zones : Dict Zone) (field : String) (zone : Zone)
    (hz : zones.lookup field = some zone)
    (hcrop : env.size (env.crop_zone corrected
      (zoneRect zone env.target_width env.target_height).1
      (zoneRect zone env.target_width env.target_height).2.1
      (zoneRect zone env.target_width env.target_height).2.2.1
      (zoneRect zone env.target_width env.target_height).2.2.2) = 0) :
    ∀ fields : List String, field ∈ fields →
    (extractZones env corrected zones fields).1.lookup field = some "" ∧
      field ∉ (extractZones env corrected zones fields).2 := by
  intro fields
  induction fields with
  | nil => intro h; exact absurd h (List.not_mem_nil field)
  | cons f rest ih =>
    intro hmem
    by_cases hf : f = field
    · subst hf
      simp only [extractZones, hz]
      have hcz : (env.size (env.crop_zone corrected
          (zoneRect zone env.target_width env.target_height).1
          (zoneRect zone env.target_width env.target_height).2.1
          (zoneRect zone env.target_width env.target_height).2.2.1
          (zoneRect zone env.target_width env.target_height).2.2.2) == 0) = true := by
        simp [hcrop]
      simp only [hcz, if_true]
      refine ⟨lookup_cons_self f "" _, ?_⟩
      by_cases hmem2 : f ∈ rest
      · exact (ih hmem2).2
      · intro habs
        have hsub : (extractZones env corrected zones rest).2 ⊆ rest := by
          clear ih hmem hmem2 habs
          induction rest with
          | nil => simp [extractZones]
          | cons g grest ihg =>
            simp only [extractZones]
            cases hzg : zones.lookup g with
            | none => exact List.Subset.trans ihg (List.subset_cons_self g grest)
            | some zg =>
              simp only
              split
              · exact List.Subset.trans ihg (List.subset_cons_self g grest)
              · exact List.cons_subset_cons g ihg
        exact hmem2 (hsub habs)
    · have hrest : field ∈ rest := by
        rcases List.mem_cons.mp hmem with h | h
        · exact absurd h.symm hf
        · exact h
      have hne : field ≠ f := fun h => hf h.symm
      simp only [extractZones]
      cases hzf : zones.lookup f with
      | none =>
        refine ⟨?_, (ih hrest).2⟩
        rw [lookup_cons_ne field f "" _ hne]
        exact (ih hrest).1
      | some zf =>
        simp only
        split
        · refine ⟨?_, (ih hrest).2⟩
          rw [lookup_cons_ne field f "" _ hne]
          exact (ih hrest).1
        · refine ⟨?_, ?_⟩
          · rw [lookup_cons_ne field f _ _ hne]
            exact (ih hrest).1
          · intro habs
            rcases List.mem_cons.mp habs with h | h
            · exact hne h
            · exact (ih hrest).2 h

theorem lookup_map_empty (fields : List String) (field : String)
    (h : field ∈ fields) :
    (fields.map (fun f => (f, ""))).lookup field = some "" := by
  induction fields with
  | nil => exact absurd h (List.not_mem_nil field)
  | cons f rest ih =>
    by_cases hf : f = field
    · subst hf
      exact lookup_cons_self f "" _
    · have hrest : field ∈ rest := by
        rcases List.mem_cons.mp h with h1 | h1
        · exact absurd h1.symm hf
        · exact h1
      simp only [List.map_cons]
      rw [lookup_cons_ne field f "" _ (fun h1 => hf h1.symm)]
      exact ih hrest

/-! ## Concrete collaborator assignments (used to exercise the theorems) -/

/-- Collaborators for which decoding always fails; the validator is the
identity. -/
def failEnv : Env ℕ where
  decode_base64 := fun _ => none
  size := fun n => n
  detect := fun i => (i, true)
  normalize_document := fun i => i
  load_zones := fun _ => []
  crop_zone := fun i _ _ _ _ => i
  roi_ocr := fun _ => ""
  clean_text := fun s => s
  validate_all := fun m => m
  target_width := 1000
  target_height := 630

/-- Collaborators for which decoding yields a non-empty image, the layout
contains a single zone for `f_nazwisko`, and every crop is empty. -/
def cropEnv : Env ℕ where
  decode_base64 := fun _ => some 1
  size := fun n => n
  detect := fun i => (i, true)
  normalize_document := fun i => i
  load_zones := fun _ => [("f_nazwisko", ⟨0, 0, 0, 0⟩)]
  crop_zone := fun _ _ _ _ _ => 0
  roi_ocr := fun _ => ""
  clean_text := fun s => s
  validate_all := fun m => m
  target_width := 1000
  target_height := 630

/-! ## Claim theorems -/

/-- C1 (counterexample): the claim states the pixel rectangle is computed by
rounding and that for a 1000x630 frame and zone
`{x:0.1, y:0.1, width:0.2, height:0.05}` it equals `(100, 63, 200, 32)`.
The code truncates with `int(...)`, giving `(100, 63, 200, 31)` at that zone
(`0.05 * 630 = 31.5` truncates to `31`), while the spec's rounding formula
(`specZoneRect`) does give `(100, 63, 200, 32)`. -/
theorem C1_round_counterexample :
    zoneRect exampleZone 1000 630 ≠ (100, 63, 200, 32) ∧
    zoneRect exampleZone 1000 630 = (100, 63, 200, 31) ∧
    specZoneRect exampleZone 1000 630 = (100, 63, 200, 32) := by
  refine ⟨?_, ?_, ?_⟩
  · norm_num [zoneRect, pyInt, exampleZone, Prod.ext_iff]
  · norm_num [zoneRect, pyInt, exampleZone]
  · norm_num [specZoneRect, exampleZone, round_eq]

/-- C1 (amended): for every zone with non-negative coordinates the absolute
pixel rectangle is computed by truncating the scaled fractional coordinates
(`int(...)`, i.e. floor for non-negative values): `px = ⌊x * frameWidth⌋`
etc.; for a 1000x630 frame and zone `{x:0.1, y:0.1, width:0.2, height:0.05}`
the computed rectangle equals `(100, 63, 200, 31)`. -/
theorem C1_truncated_rect (z : Zone) (tw th : ℕ) (hx : 0 ≤ z.x) (hy : 0 ≤ z.y)
    (hw : 0 ≤ z.width) (hh : 0 ≤ z.height) :
    zoneRect z tw th =
      (⌊z.x * tw⌋, ⌊z.y * th⌋, ⌊z.width * tw⌋, ⌊z.height * th⌋) ∧
    zoneRect exampleZone 1000 630 = (100, 63, 200, 31) := by
  have e : ∀ q : ℚ, 0 ≤ q → pyInt q = ⌊q⌋ := by
    intro q hq
    simp [pyInt, hq]
  constructor
  · unfold zoneRect
    rw [e _ (mul_nonneg hx (Nat.cast_nonneg tw)),
        e _ (mul_nonneg hy (Nat.cast_nonneg th)),
        e _ (mul_nonneg hw (Nat.cast_nonneg tw)),
        e _ (mul_nonneg hh (Nat.cast_nonneg th))]
  · norm_num [zoneRect, pyInt, exampleZone]

theorem C1_truncated_rect_witness :
    zoneRect exampleZone 1000 630 =
      (⌊exampleZone.x * 1000⌋, ⌊exampleZone.y * 630⌋,
       ⌊exampleZone.width * 1000⌋, ⌊exampleZone.height * 630⌋) ∧
    zoneRect exampleZone 1000 630 = (100, 63, 200, 31) :=
  C1_truncated_rect exampleZone 1000 630 (by norm_num [exampleZone])
    (by norm_num [exampleZone]) (by norm_num [exampleZone])
    (by norm_num [exampleZone])

/-- C2: for every input (including decode failure), the key list of the
dictionary returned by `_process_side` — and hence by `process_front` and
`process_back` — equals exactly the requested side's fixed field list,
provided the external `validate_all` collaborator keeps the key list of
the mapping it corrects. -/
theorem C2_sideresult_keys {Img : Type} (env : Env Img)
    (hv : PreservesKeys env.validate_all) :
    (∀ image_base64 side fields,
      (process_side env image_base64 side fields).map Prod.fst = fields) ∧
    (∀ image_base64,
      (process_front env image_base64).map Prod.fst = FRONT_FIELDS) ∧
    (∀ image_base64,
      (process_back env image_base64).map Prod.fst = BACK_FIELDS) :=
  ⟨fun i s f => process_side_keys env hv i s f,
   fun i => process_side_keys env hv i "front" FRONT_FIELDS,
   fun i => process_side_keys env hv i "back" BACK_FIELDS⟩

theorem C2_sideresult_keys_witness :
    (process_front failEnv "x").map Prod.fst = FRONT_FIELDS :=
  (C2_sideresult_keys failEnv (fun _ => rfl)).2.1 "x"

/-- C4: if decoding the input image fails (`decode_base64` returns `None`)
or yields an empty image (`.size == 0`), `_process_side` skips geometry
correction and zone extraction entirely (in particular the recognition
engine is never invoked) and returns a dictionary mapping every field of
the requested side's field list to the empty string. -/
theorem C4_decode_failure {Img : Type} (env : Env Img)
    (image_base64 side : String) (fields : List String)
    (h : env.decode_base64 image_base64 = none ∨
         ∃ image, env.decode_base64 image_base64 = some image ∧
           env.size image = 0) :
    process_side env image_base64 side fields = fields.map (fun f => (f, "")) ∧
    (processSideCalls env image_base64 side fields).2 = [] := by
  unfold process_side processSideCalls
  rcases h with h | ⟨image, himg, hsz⟩
  · simp [h]
  · simp [himg, hsz]

theorem C4_decode_failure_witness :
    process_side failEnv "x" "front" FRONT_FIELDS =
      FRONT_FIELDS.map (fun f => (f, "")) ∧
    (processSideCalls failEnv "x" "front" FRONT_FIELDS).2 = [] :=
  C4_decode_failure failEnv "x" "front" FRONT_FIELDS (Or.inl rfl)

/-- C7: the combined result returned by `process_both` has `success = true`
unconditionally, for every pair of inputs and all collaborator behaviour. -/
theorem C7_success_always {Img : Type} (env : Env Img)
    (front_base64 back_base64 : String) :
    (process_both env front_base64 back_base64).success = true := rfl

/-- C9: `process_both` is deterministic: with the collaborators fixed (they
are pure functions of the `Env`), two calls on identical front and back
inputs yield identical combined results. -/
theorem C9_deterministic {Img : Type} (env : Env Img)
    (front1 back1 front2 back2 : String)
    (hf : front1 = front2) (hb : back1 = back2) :
    process_both env front1 back1 = process_both env front2 back2 := by
  rw [hf, hb]

theorem C9_deterministic_witness :
    process_both failEnv "f" "b" = process_both failEnv "f" "b" :=
  C9_deterministic failEnv "f" "b" "f" "b" rfl rfl

/-! ## Aggregation lemmas for `process_both` -/

theorem process_both_data {Img : Type} (env : Env Img)
    (hv : PreservesKeys env.validate_all) (front_base64 back_base64 : String) :
    (process_both env front_base64 back_base64).data =
      process_front env front_base64 ++ process_back env back_base64 := by
  have hkf : (process_front env front_base64).map Prod.fst = FRONT_FIELDS :=
    process_side_keys env hv _ _ _
  have hkb : (process_back env back_base64).map Prod.fst = BACK_FIELDS :=
    process_side_keys env hv _ _ _
  have hnf : ((process_front env front_base64).map Prod.fst).Nodup := by
    rw [hkf]; decide
  have hnb : ((process_back env back_base64).map Prod.fst).Nodup := by
    rw [hkb]; decide
  have h1 : dictUpdate [] (process_front env front_base64) =
      process_front env front_base64 := by
    have := dictUpdate_disjoint (process_front env front_base64) []
      (by simp) hnf
    simpa using this
  have h2 : dictUpdate (process_front env front_base64)
      (process_back env back_base64) =
      process_front env front_base64 ++ process_back env back_base64 := by
    apply dictUpdate_disjoint _ _ _ hnb
    intro k hk
    rw [hkb] at hk
    rw [hkf]
    exact (by decide : ∀ x ∈ BACK_FIELDS, x ∉ FRONT_FIELDS) k hk
  show dictUpdate (dictUpdate [] (process_front env front_base64))
      (process_back env back_base64) = _
  rw [h1, h2]

theorem process_both_total {Img : Type} (env : Env Img)
    (hv : PreservesKeys env.validate_all) (front_base64 back_base64 : String) :
    (process_both env front_base64 back_base64).total_fields = 17 := by
  have hd := process_both_data env hv front_base64 back_base64
  have hkf : (process_front env front_base64).map Prod.fst = FRONT_FIELDS :=
    process_side_keys env hv _ _ _
  have hkb : (process_back env back_base64).map Prod.fst = BACK_FIELDS :=
    process_side_keys env hv _ _ _
  have hlf : (process_front env front_base64).length = 8 := by
    have := congrArg List.length hkf
    simpa using this
  have hlb : (process_back env back_base64).length = 9 := by
    have := congrArg List.length hkb
    simpa using this
  have : (process_both env front_base64 back_base64).total_fields =
      (process_both env front_base64 back_base64).data.length := rfl
  rw [this, hd, List.length_append, hlf, hlb]

/-- C3: for every pair of inputs, the combined result of `process_both`
satisfies: `total_fields` equals `|FRONT_FIELDS| + |BACK_FIELDS| = 8 + 9 =
17`, `extracted_fields` equals the count of non-empty values in `data`, and
`extraction_rate` equals `extracted_fields / total_fields` (the `total_fields
> 0` branch of the code, which always applies since `total_fields = 17`;
the `else 0` branch is dead) — provided the external `validate_all`
collaborator keeps the key list of the mapping it corrects. -/
theorem C3_aggregation_invariant {Img : Type} (env : Env Img)
    (hv : PreservesKeys env.validate_all) (front_base64 back_base64 : String) :
    (process_both env front_base64 back_base64).total_fields =
      FRONT_FIELDS.length + BACK_FIELDS.length ∧
    (process_both env front_base64 back_base64).total_fields = 17 ∧
    (process_both env front_base64 back_base64).extracted_fields =
      ((process_both env front_base64 back_base64).data.filter
        (fun p => p.2 != "")).length ∧
    (process_both env front_base64 back_base64).extraction_rate =
      ((process_both env front_base64 back_base64).extracted_fields : ℚ) /
        ((process_both env front_base64 back_base64).total_fields : ℚ) := by
  have ht := process_both_total env hv front_base64 back_base64
  refine ⟨by rw [ht]; decide, ht, rfl, ?_⟩
  have hpos : (process_both env front_base64 back_base64).data.length > 0 := by
    have : (process_both env front_base64 back_base64).data.length = 17 := ht
    omega
  have hrate : (process_both env front_base64 back_base64).extraction_rate =
      if (process_both env front_base64 back_base64).data.length > 0 then
        (((process_both env front_base64 back_base64).data.filter
          (fun p => p.2 != "")).length : ℚ) /
          ((process_both env front_base64 back_base64).data.length : ℚ)
      else 0 := rfl
  rw [hrate, if_pos hpos]
  rfl

theorem C3_aggregation_invariant_witness :
    (process_both failEnv "f" "b").total_fields =
      FRONT_FIELDS.length + BACK_FIELDS.length ∧
    (process_both failEnv "f" "b").total_fields = 17 ∧
    (process_both failEnv "f" "b").extracted_fields =
      ((process_both failEnv "f" "b").data.filter (fun p => p.2 != "")).length ∧
    (process_both failEnv "f" "b").extraction_rate =
      ((process_both failEnv "f" "b").extracted_fields : ℚ) /
        ((process_both failEnv "f" "b").total_fields : ℚ) :=
  C3_aggregation_invariant failEnv (fun _ => rfl) "f" "b"

/-- C5: for every field of the field list that is absent from the loaded
zone definition, the field's value in the side result is the empty string
and no error is raised (the embedding is total); extraction proceeds for
the remaining fields, whose keys all stay present.  Uses the external
validator's contract: it keeps the key list and leaves empty values
empty. -/
theorem C5_missing_zone {Img : Type} (env : Env Img)
    (hk : PreservesKeys env.validate_all) (he : PreservesEmpty env.validate_all)
    (image_base64 side : String) (fields : List String) (field : String)
    (hmem : field ∈ fields)
    (hz : (env.load_zones side).lookup field = none) :
    (process_side env image_base64 side fields).lookup field = some "" ∧
    (process_side env image_base64 side fields).map Prod.fst = fields := by
  refine ⟨?_, process_side_keys env hk _ _ _⟩
  unfold process_side processSideCalls
  cases hd : env.decode_base64 image_base64 with
  | none => exact lookup_map_empty fields field hmem
  | some image =>
    simp only
    split
    · exact lookup_map_empty fields field hmem
    · exact he _ field
        (extractZones_lookup_of_no_zone env _ _ field hz fields hmem)

theorem C5_missing_zone_witness :
    (process_side cropEnv "x" "front" FRONT_FIELDS).lookup "f_imiona" =
      some "" ∧
    (process_side cropEnv "x" "front" FRONT_FIELDS).map Prod.fst =
      FRONT_FIELDS :=
  C5_missing_zone cropEnv (fun _ => rfl) (fun _ _ h => h) "x" "front"
    FRONT_FIELDS "f_imiona" (by decide) (by decide)

/-- C6: for every field whose cropped zone has zero size after cropping
(numpy `cropped.size == 0`), the field's value in the side result is the
empty string, no error is raised (the embedding is total), and the
recognition engine is not invoked for that field (it is absent from the
instrumented call list).  Uses the external validator's contract that it
leaves empty values empty. -/
theorem C6_zero_area_crop {Img : Type} (env : Env Img)
    (he : PreservesEmpty env.validate_all)
    (image_base64 side : String) (fields : List String) (field : String)
    (zone : Zone) (image : Img)
    (hdec : env.decode_base64 image_base64 = some image)
    (hsz : env.size image ≠ 0)
    (hmem : field ∈ fields)
    (hz : (env.load_zones side).lookup field = some zone)
    (hcrop : env.size (env.crop_zone (correctedImage env image)
      (zoneRect zone env.target_width env.target_height).1
      (zoneRect zone env.target_width env.target_height).2.1
      (zoneRect zone env.target_width env.target_height).2.2.1
      (zoneRect zone env.target_width env.target_height).2.2.2) = 0) :
    (process_side env image_base64 side fields).lookup field = some "" ∧
    field ∉ (processSideCalls env image_base64 side fields).2 := by
  have hz0 := extractZones_zero_crop env (correctedImage env image)
    (env.load_zones side) field zone hz hcrop fields hmem
  unfold process_side processSideCalls
  rw [hdec]
  simp only
  rw [if_neg (by simpa using hsz)]
  exact ⟨he _ field hz0.1, hz0.2⟩

theorem C6_zero_area_crop_witness :
    (process_side cropEnv "x" "front" FRONT_FIELDS).lookup "f_nazwisko" =
      some "" ∧
    "f_nazwisko" ∉ (processSideCalls cropEnv "x" "front" FRONT_FIELDS).2 :=
  C6_zero_area_crop cropEnv (fun _ _ h => h) "x" "front" FRONT_FIELDS
    "f_nazwisko" ⟨0, 0, 0, 0⟩ 1 rfl (by decide) (by decide) rfl rfl

/-- C8: if the recognition engine is unavailable (`TESSERACT_AVAILABLE` is
false) or the engine call raises at runtime (the `except` branch),
`extract_text_from_roi` returns the empty string — no exception propagates,
the embedding being a total function — and any value-preserving cleaning
step applied afterwards (the validator's `clean_text` maps `""` to `""`)
leaves the affected field's value empty. -/
theorem C8_engine_failure_empty {Img : Type} (available : Bool)
    (engine : Img → RecognitionOutcome) (roi : Img)
    (h : available = false ∨ engine roi = RecognitionOutcome.failure) :
    extract_text_from_roi available engine roi = [] ∧
    ∀ clean : PyStr → PyStr, clean [] = [] →
      clean (extract_text_from_roi available engine roi) = [] := by
  have h1 : extract_text_from_roi available engine roi = [] := by
    unfold extract_text_from_roi
    rcases h with h | h
    · simp [h]
    · cases available <;> simp [h]
  exact ⟨h1, fun clean hc => by rw [h1]; exact hc⟩

theorem C8_engine_failure_empty_witness :
    extract_text_from_roi false (fun _ : Unit => RecognitionOutcome.ok [97]) () = [] ∧
    ∀ clean : PyStr → PyStr, clean [] = [] →
      clean (extract_text_from_roi false
        (fun _ : Unit => RecognitionOutcome.ok [97]) ()) = [] :=
  C8_engine_failure_empty false (fun _ : Unit => RecognitionOutcome.ok [97]) ()
    (Or.inl rfl)

/-! ## Cleanliness of the OCR service output (C10) -/

/-- No two adjacent whitespace code points. -/
def NoTwoWs (a b : ℕ) : Prop := ¬(isWs a = true ∧ isWs b = true)

/-- A cleaned string: the only whitespace it contains is the plain space,
it neither starts nor ends with whitespace, whitespace runs are single
spaces, and it is a fixed point of upper-casing. -/
def cleanedForm (r : PyStr) : Prop :=
  (∀ c ∈ r, isWs c = true → c = 32) ∧
  (∀ c ∈ r.head?, isWs c = false) ∧
  (∀ c ∈ r.getLast?, isWs c = false) ∧
  r.Chain' NoTwoWs ∧
  (∀ c ∈ r, upperChar c = c)

theorem isWs_upperChar (c : ℕ) : isWs (upperChar c) = isWs c := by
  unfold upperChar
  split
  · rename_i h
    have h1 : isWs (c - 32) = false := by
      simp only [isWs, Bool.or_eq_false_iff, beq_eq_false_iff_ne, ne_eq]
      omega
    have h2 : isWs c = false := by
      simp only [isWs, Bool.or_eq_false_iff, beq_eq_false_iff_ne, ne_eq]
      omega
    rw [h1, h2]
  · rfl

theorem upperChar_idem (c : ℕ) : upperChar (upperChar c) = upperChar c := by
  unfold upperChar
  split_ifs <;> omega

theorem pySplit_words (l : PyStr) :
    ∀ w ∈ pySplit l, w ≠ [] ∧ ∀ c ∈ w, isWs c = false := by
  induction l using pySplit.induct with
  | case1 => simp [pySplit]
  | case2 c cs h ih =>
    rw [pySplit, if_pos h]
    exact ih
  | case3 c cs h ih =>
    rw [pySplit, if_neg h]
    intro w hw
    rcases List.mem_cons.mp hw with hw | hw
    · subst hw
      constructor
      · simp [List.takeWhile_cons, h]
      · intro d hd
        have := List.mem_takeWhile_imp hd
        simpa using this
    · exact ih w hw

theorem chain'_of_no_ws (w : PyStr) (hw : ∀ c ∈ w, isWs c = false) :
    w.Chain' NoTwoWs := by
  induction w with
  | nil => simp
  | cons c rest ih =>
    rw [List.chain'_cons']
    refine ⟨?_, ih (fun x hx => hw x (List.mem_cons_of_mem c hx))⟩
    intro y _ hab
    have := hw c (List.mem_cons_self c _)
    simp [this] at hab

theorem pyJoin_ne_nil (w : PyStr) (t : List PyStr) (hw : w ≠ []) :
    pyJoin [32] (w :: t) ≠ [] := by
  cases t with
  | nil => simpa [pyJoin] using hw
  | cons w2 t2 => simp [pyJoin, hw]

theorem pyJoin_clean (ws : List PyStr)
    (h : ∀ w ∈ ws, w ≠ [] ∧ ∀ c ∈ w, isWs c = false) :
    (∀ c ∈ pyJoin [32] ws, isWs c = true → c = 32) ∧
    (∀ c ∈ (pyJoin [32] ws).head?, isWs c = false) ∧
    (∀ c ∈ (pyJoin [32] ws).getLast?, isWs c = false) ∧
    (pyJoin [32] ws).Chain' NoTwoWs := by
  induction ws with
  | nil => simp [pyJoin]
  | cons w tail ih =>
    have hw := h w (List.mem_cons_self w _)
    cases tail with
    | nil =>
      simp only [pyJoin]
      refine ⟨?_, ?_, ?_, chain'_of_no_ws w hw.2⟩
      · intro c hc hws
        exact absurd hws (by simp [hw.2 c hc])
      · intro c hc
        exact hw.2 c (by rw [List.eq_cons_of_mem_head? hc]; exact List.mem_cons_self c _)
      · intro c hc
        obtain ⟨hne, hc'⟩ := List.mem_getLast?_eq_getLast hc
        exact hw.2 c (hc' ▸ List.getLast_mem hne)
    | cons w2 t2 =>
      have ih2 := ih (fun x hx => h x (List.mem_cons_of_mem w hx))
      have hw2 := h w2 (List.mem_cons_of_mem w (List.mem_cons_self w2 t2))
      have hjne : pyJoin [32] (w2 :: t2) ≠ [] := pyJoin_ne_nil w2 t2 hw2.1
      have hshape : pyJoin [32] (w :: w2 :: t2) =
          w ++ [32] ++ pyJoin [32] (w2 :: t2) := rfl
      rw [hshape]
      obtain ⟨j1, j2, j3, j4⟩ := ih2
      refine ⟨?_, ?_, ?_, ?_⟩
      · intro c hc hws
        simp only [List.append_assoc, List.mem_append, List.mem_singleton] at hc
        rcases hc with hc | hc | hc
        · exact absurd hws (by simp [hw.2 c hc])
        · exact hc
        · exact j1 c hc hws
      · intro c hc
        obtain ⟨c0, w', rfl⟩ : ∃ c0 w', w = c0 :: w' := by
          cases w with
          | nil => exact absurd rfl hw.1
          | cons c0 w' => exact ⟨c0, w', rfl⟩
        simp only [List.cons_append, List.head?_cons, Option.mem_def,
          Option.some.injEq] at hc
        subst hc
        exact hw.2 c0 (List.mem_cons_self c0 _)
      · intro c hc
        rw [List.getLast?_append_of_ne_nil _ hjne] at hc
        exact j3 c hc
      · rw [List.chain'_append]
        refine ⟨?_, j4, ?_⟩
        · rw [List.chain'_append]
          refine ⟨chain'_of_no_ws w hw.2, by simp, ?_⟩
          intro x hx y hy
          obtain ⟨hne, hx'⟩ := List.mem_getLast?_eq_getLast hx
          have hxw : isWs x = false := hw.2 x (hx' ▸ List.getLast_mem hne)
          intro hab
          simp [hxw] at hab
        · intro x hx y hy
          have hyj : isWs y = false := by
            rw [List.getLast?_append_of_ne_nil] at hx
            · exact j2 y hy
            · simp
          intro hab
          simp [hyj] at hab

theorem cleanedForm_map_upper (r : PyStr)
    (h1 : ∀ c ∈ r, isWs c = true → c = 32)
    (h2 : ∀ c ∈ r.head?, isWs c = false)
    (h3 : ∀ c ∈ r.getLast?, isWs c = false)
    (h4 : r.Chain' NoTwoWs) :
    cleanedForm (r.map upperChar) := by
  refine ⟨?_, ?_, ?_, ?_, ?_⟩
  · intro c hc hws
    obtain ⟨c0, hc0, rfl⟩ := List.mem_map.mp hc
    rw [isWs_upperChar] at hws
    rw [h1 c0 hc0 hws]
    decide
  · intro c hc
    rw [List.head?_map] at hc
    cases hr : r.head? with
    | none => rw [hr] at hc; simp at hc
    | some c0 =>
      rw [hr] at hc
      simp only [Option.map_some', Option.mem_def, Option.some.injEq] at hc
      rw [← hc, isWs_upperChar]
      exact h2 c0 (by rw [hr]; rfl)
  · intro c hc
    rw [List.getLast?_map] at hc
    cases hr : r.getLast? with
    | none => rw [hr] at hc; simp at hc
    | some c0 =>
      rw [hr] at hc
      simp only [Option.map_some', Option.mem_def, Option.some.injEq] at hc
      rw [← hc, isWs_upperChar]
      exact h3 c0 (by rw [hr]; rfl)
  · rw [List.chain'_map]
    refine List.Chain'.imp ?_ h4
    intro a b hab
    unfold NoTwoWs at hab ⊢
    rw [isWs_upperChar, isWs_upperChar]
    exact hab
  · intro c hc
    obtain ⟨c0, _, rfl⟩ := List.mem_map.mp hc
    exact upperChar_idem c0

theorem cleanRoi_cleanedForm (text : PyStr) : cleanedForm (cleanRoi text) := by
  obtain ⟨j1, j2, j3, j4⟩ :=
    pyJoin_clean (pySplit (pyStrip text)) (pySplit_words (pyStrip text))
  exact cleanedForm_map_upper _ j1 j2 j3 j4

/-- C10: every string returned by `OCRService.extract_text_from_roi` is
either empty or in cleaned form: uppercase (a fixed point of upper-casing),
all whitespace runs collapsed to single plain spaces, and no leading or
trailing whitespace.  The theorem quantifies over the raw engine output,
so this cleaning is performed inside the OCR service itself (before the
processor applies the external validator's `clean_text`). -/
theorem C10_roi_text_cleaned {Img : Type} (available : Bool)
    (engine : Img → RecognitionOutcome) (image_array : Img) :
    extract_text_from_roi available engine image_array = [] ∨
    cleanedForm (extract_text_from_roi available engine image_array) := by
  unfold extract_text_from_roi
  cases available with
  | false => left; rfl
  | true =>
    cases hres : engine image_array with
    | ok text =>
      right
      simpa using cleanRoi_cleanedForm text
    | failure => left; rfl

end IDCardOCR
